import Mathlib

/-!
Shallow embedding of `src/main.cpp` (johnpanos/syntactic-observer-pattern):
an observable property (value container with change observers) and a
time-based linear-interpolation animation driver.

Modelling conventions:
* C++ `int64_t` milliseconds timestamps and durations become `Int`
  (overflow is irrelevant for every claim considered).
* C++ `float`/`double` intermediates become exact rationals `ℚ`; every
  numeric value appearing in the claims (0, 0.5, 1, 1.2, 50, 100, ...)
  is exactly representable in binary floating point, and `float`/`double`
  division and the IEEE operations are monotone, so the rational model is
  faithful on the claims' inputs.
* The `(int)` cast of a floating value truncates toward zero; `ratTrunc`
  models it.
* `std::function<void(T,T)>` observers are opaque callbacks whose side
  effects are external to the property; the embedding represents each
  observer by an opaque tag of a type `α` and records every invocation
  (together with the final store of the backing value) in an explicit
  event trace, in the order the C++ code performs them.  Re-entrant
  assignment from inside an observer is left unspecified by the source
  and is outside this model.
-/

namespace SyntacticObserver

/-- `ObservableProperty<T>` from `src/main.cpp` lines 16-41: a backing
`value` and an ordered list of observers (represented by opaque tags). -/
structure ObservableProperty (T : Type) (α : Type) where
  value : T
  observers : List α
  deriving Repr, DecidableEq

/-- One externally visible action performed on an `ObservableProperty`:
either an observer invocation `observer(oldVal, newVal)` or the store
`this->value = v` of the backing field. -/
inductive Event (T : Type) (α : Type) where
  | invoke (o : α) (oldVal newVal : T)
  | commit (v : T)
  deriving Repr, DecidableEq

/-- `ObservableProperty::operator=` (`src/main.cpp` lines 22-30):
`for (auto observer : this->observers) observer(this->value, new_value);
this->value = new_value;`.  Returns the updated property together with
the trace of actions in program order: one `invoke` per observer, in
list order, each receiving the pre-assignment `value` and the argument,
followed by the final `commit` of the backing value. -/
def assign {T α : Type} (p : ObservableProperty T α) (new_value : T) :
    ObservableProperty T α × List (Event T α) :=
  (⟨new_value, p.observers⟩,
   p.observers.map (fun o => Event.invoke o p.value new_value)
     ++ [Event.commit new_value])

/-- `ObservableProperty::add_observer` (`src/main.cpp` lines 37-40):
`this->observers.push_back(observer);`. -/
def add_observer {T α : Type} (p : ObservableProperty T α) (o : α) :
    ObservableProperty T α :=
  ⟨p.value, p.observers ++ [o]⟩

/-- A direct write to the backing field (`property->value = x;`), as
performed by `Animation::tick`: it does not go through `operator=` and
therefore produces no observer invocation, only the `commit`. -/
def directWrite {T α : Type} (p : ObservableProperty T α) (v : T) :
    ObservableProperty T α × List (Event T α) :=
  (⟨v, p.observers⟩, [Event.commit v])

/-- The subsequence of observer invocations `(observer, oldVal, newVal)`
of an event trace, in order. -/
def invocations {T α : Type} (evs : List (Event T α)) : List (α × T × T) :=
  evs.filterMap (fun e =>
    match e with
    | Event.invoke o a b => some (o, a, b)
    | Event.commit _ => none)

/-- Truncation toward zero of a rational, the semantics of the C++
conversion of a floating-point value to an integer type. -/
def ratTrunc (q : ℚ) : ℤ :=
  if 0 ≤ q then ⌊q⌋ else ⌈q⌉

/-- `lerp<T>` (`src/main.cpp` lines 61-65) instantiated at an integer
`T`: `return (T)start + (prog * (end - start));` — the sum is computed
in `double` and truncated toward zero by the conversion back to `T` at
the `return`. -/
def lerpInt (start endv : ℤ) (prog : ℚ) : ℤ :=
  ratTrunc ((start : ℚ) + prog * ((endv : ℚ) - (start : ℚ)))

/-- `lerp<T>` (`src/main.cpp` lines 61-65) instantiated at a floating
`T`: `start + (prog * (end - start))`, no truncation. -/
def lerpRat (start endv : ℚ) (prog : ℚ) : ℚ :=
  start + prog * (endv - start)

/-- The numeric semantics a C++ instantiation `Animation<T>` gives to
`lerp<T>`: truncating for integer `T`, exact for floating `T`. -/
class CppLerp (T : Type) where
  lerp : T → T → ℚ → T

instance : CppLerp ℤ := ⟨lerpInt⟩

instance : CppLerp ℚ := ⟨lerpRat⟩

/-- `Animation<T>` (`src/main.cpp` lines 67-156).  The C++ object holds
a pointer to the bound property; the embedding stores the property state
inline and `tick` returns its updated state. -/
structure Animation (T : Type) (α : Type) where
  start_time : ℤ
  end_time : ℤ
  property : ObservableProperty T α
  start : T
  endv : T
  duration : ℤ
  deriving Repr

/-- `Animation::prep` (`src/main.cpp` lines 79-84) with the ambient
clock reading passed explicitly: `start_time = now;
end_time = now + duration;`. -/
def Animation.prep {T α : Type} (a : Animation T α) (now : ℤ) :
    Animation T α :=
  { a with start_time := now, end_time := now + a.duration }

/-- `Animation::get_progress` (`src/main.cpp` lines 98-109):
`delta = now - start_time; if (delta == 0) return 0.0f;
return (float)((double)delta / (double)duration);`. -/
def Animation.get_progress {T α : Type} (a : Animation T α) (now : ℤ) : ℚ :=
  let delta : ℤ := now - a.start_time
  if delta = 0 then 0
  else (delta : ℚ) / (a.duration : ℚ)

/-- `Animation::get_value_for_progress` (`src/main.cpp` lines 117-120):
`return lerp(this->start, this->end, prog);`. -/
def Animation.get_value_for_progress {T α : Type} [CppLerp T]
    (a : Animation T α) (prog : ℚ) : T :=
  CppLerp.lerp a.start a.endv prog

/-- `Animation::tick` (`src/main.cpp` lines 127-143): computes the
progress and writes `end`, `start`, or the interpolated value directly
into the bound property's `value` field. -/
def Animation.tick {T α : Type} [CppLerp T] (a : Animation T α)
    (now : ℤ) : ObservableProperty T α × List (Event T α) :=
  let prog := a.get_progress now
  if prog > 1 then
    directWrite a.property a.endv
  else if prog < 0 then
    directWrite a.property a.start
  else
    directWrite a.property (a.get_value_for_progress prog)

/-- `Animation::finished` (`src/main.cpp` lines 152-155):
`return this->get_progress(now) >= 1.0;`. -/
def Animation.finished {T α : Type} (a : Animation T α) (now : ℤ) : Bool :=
  decide ((1 : ℚ) ≤ a.get_progress now)

/-- C1.  Notify-then-commit: assigning `new_value` to an
`ObservableProperty` invokes each registered observer with
`(oldValue, newValue)` where `oldValue` is the value held immediately
before the assignment and `newValue` is the assigned argument; the
store of the backing value is the last event of the trace, after all
observer invocations; and afterwards `value = new_value`. -/
theorem assign_notify_then_commit {T α : Type}
    (p : ObservableProperty T α) (new_value : T) :
    (assign p new_value).1.value = new_value ∧
    (assign p new_value).1.observers = p.observers ∧
    (assign p new_value).2 =
      p.observers.map (fun o => Event.invoke o p.value new_value)
        ++ [Event.commit new_value] :=
  ⟨rfl, rfl, rfl⟩

theorem invocations_map_invoke {T α : Type} (l : List α) (a b : T) :
    invocations (l.map (fun o => Event.invoke o a b)) =
      l.map (fun o => (o, a, b)) := by
  induction l with
  | nil => rfl
  | cons h t ih =>
    simp only [List.map_cons, invocations, List.filterMap_cons] at ih ⊢
    exact congrArg _ ih

/-- C9.  Observer order: an assignment invokes exactly the registered
observers, in registration order, each once per registration, always
with the same arguments; and `add_observer` appends at the end of the
registration order. -/
theorem assign_observer_order {T α : Type}
    (p : ObservableProperty T α) (v : T) (o : α) :
    invocations (assign p v).2 =
      p.observers.map (fun ob => (ob, p.value, v)) ∧
    (add_observer p o).observers = p.observers ++ [o] := by
  constructor
  · show invocations
        (p.observers.map (fun o => Event.invoke o p.value v)
          ++ [Event.commit v]) = _
    rw [invocations, List.filterMap_append, ← invocations,
      invocations_map_invoke]
    simp [invocations]
  · rfl

/-- C4.  Direct-write bypass: `Animation::tick` writes the bound
property's backing value directly, so its trace contains no observer
invocation, and the property's observer list is unchanged. -/
theorem tick_bypasses_notification {T α : Type} [CppLerp T]
    (a : Animation T α) (now : ℤ) :
    invocations (a.tick now).2 = [] ∧
    (a.tick now).1.observers = a.property.observers := by
  unfold Animation.tick
  by_cases h1 : a.get_progress now > 1
  · simp [h1, directWrite, invocations]
  · by_cases h2 : a.get_progress now < 0
    · simp [h1, h2, directWrite, invocations]
    · simp [h1, h2, directWrite, invocations]

/-- C6.  Zero-delta short-circuit: for every animation, whatever its
`duration` (including 0), `get_progress` at `now = start_time` takes
the `delta == 0` branch and returns exactly `0.0`; no division is
performed on that path, so even `duration = 0` yields exactly 0. -/
theorem get_progress_zero_delta {T α : Type} (a : Animation T α) :
    a.get_progress a.start_time = 0 := by
  simp [Animation.get_progress]

theorem get_progress_eq_div {T α : Type} (a : Animation T α) (now : ℤ) :
    a.get_progress now = ((now - a.start_time : ℤ) : ℚ) / (a.duration : ℚ) := by
  unfold Animation.get_progress
  by_cases h : now - a.start_time = 0
  · simp [h]
  · simp [h]

/-- C5.  Progress monotonicity: for a fixed `start_time` and
`duration > 0`, `get_progress` is monotone in the timestamp. -/
theorem get_progress_monotone {T α : Type} (a : Animation T α)
    (hd : 0 < a.duration) (t1 t2 : ℤ) (h : t1 ≤ t2) :
    a.get_progress t1 ≤ a.get_progress t2 := by
  rw [get_progress_eq_div, get_progress_eq_div]
  have hdq : (0 : ℚ) < (a.duration : ℚ) := by exact_mod_cast hd
  apply div_le_div_of_nonneg_right _ hdq.le
  exact_mod_cast Int.sub_le_sub_right h a.start_time

theorem get_progress_monotone_witness :
    (0 : ℤ) < 1000 ∧ (300 : ℤ) ≤ 700 ∧
    Animation.get_progress
        (⟨0, 1000, ⟨0, []⟩, 0, 100, 1000⟩ : Animation ℤ Unit) 300 ≤
      Animation.get_progress
        (⟨0, 1000, ⟨0, []⟩, 0, 100, 1000⟩ : Animation ℤ Unit) 700 :=
  ⟨by decide, by decide,
   get_progress_monotone (⟨0, 1000, ⟨0, []⟩, 0, 100, 1000⟩ : Animation ℤ Unit)
     (by decide) 300 700 (by decide)⟩

theorem ratTrunc_intCast (n : ℤ) : ratTrunc (n : ℚ) = n := by
  unfold ratTrunc
  split
  · exact Int.floor_intCast n
  · exact Int.ceil_intCast n

theorem get_value_for_progress_int {α : Type} (a : Animation ℤ α) (p : ℚ) :
    a.get_value_for_progress p = lerpInt a.start a.endv p := rfl

theorem get_value_for_progress_rat {α : Type} (a : Animation ℚ α) (p : ℚ) :
    a.get_value_for_progress p = lerpRat a.start a.endv p := rfl

theorem lerpInt_zero (s e : ℤ) : lerpInt s e 0 = s := by
  unfold lerpInt
  rw [zero_mul, add_zero, ratTrunc_intCast]

theorem lerpInt_one (s e : ℤ) : lerpInt s e 1 = e := by
  unfold lerpInt
  rw [one_mul, add_sub_cancel, ratTrunc_intCast]

theorem lerpRat_zero (s e : ℚ) : lerpRat s e 0 = s := by
  unfold lerpRat
  ring

theorem lerpRat_one (s e : ℚ) : lerpRat s e 1 = e := by
  unfold lerpRat
  ring

/-- C7.  Interpolation exactness at the endpoints, for both the integer
and the floating instantiation of `lerp`: `get_value_for_progress 0`
is `start` and `get_value_for_progress 1` is `end` (exactly — the
values involved are exactly representable). -/
theorem get_value_for_progress_endpoints :
    (∀ (α : Type) (a : Animation ℤ α),
      a.get_value_for_progress 0 = a.start ∧
      a.get_value_for_progress 1 = a.endv) ∧
    (∀ (α : Type) (a : Animation ℚ α),
      a.get_value_for_progress 0 = a.start ∧
      a.get_value_for_progress 1 = a.endv) := by
  constructor
  · intro α a
    exact ⟨lerpInt_zero a.start a.endv, lerpInt_one a.start a.endv⟩
  · intro α a
    exact ⟨lerpRat_zero a.start a.endv, lerpRat_one a.start a.endv⟩

/-- C3.  Boundary clamping at write time: for any prepared animation
with `duration > 0`, overshoot (`progress > 1`) makes `tick` write
exactly `end` and undershoot (`progress < 0`) makes it write exactly
`start`; in particular for `start = 0`, `end = 100`, `duration = 1000`
prepared at any `st`, `tick (st + 1200)` writes exactly `100` and
`finished (st + 1200)` is `true`. -/
theorem tick_boundary_clamping :
    (∀ (T : Type) (α : Type) [CppLerp T] (a : Animation T α) (now : ℤ),
      0 < a.duration →
      (a.get_progress now > 1 → (a.tick now).1.value = a.endv) ∧
      (a.get_progress now < 0 → (a.tick now).1.value = a.start)) ∧
    (∀ (α : Type) (prop : ObservableProperty ℤ α) (st : ℤ),
      ((Animation.prep ⟨0, 0, prop, 0, 100, 1000⟩ st).tick
          (st + 1200)).1.value = 100 ∧
      (Animation.prep ⟨0, 0, prop, 0, 100, 1000⟩ st).finished
          (st + 1200) = true) := by
  constructor
  · intro T α inst a now _
    constructor
    · intro hover
      unfold Animation.tick
      simp only [if_pos hover, directWrite]
    · intro hunder
      have hnot : ¬ a.get_progress now > 1 := by
        intro hc
        exact absurd (lt_trans hunder (lt_trans one_pos hc)) (lt_irrefl _)
      unfold Animation.tick
      simp only [if_neg hnot, if_pos hunder, directWrite]
  · intro α prop st
    have hprog : (Animation.prep
        (⟨0, 0, prop, 0, 100, 1000⟩ : Animation ℤ α) st).get_progress
        (st + 1200) = 6 / 5 := by
      rw [get_progress_eq_div]
      unfold Animation.prep
      push_cast
      ring_nf
    constructor
    · unfold Animation.tick
      rw [hprog]
      norm_num [directWrite, Animation.prep]
    · unfold Animation.finished
      rw [hprog]
      norm_num

theorem clampWitnessProgress :
    Animation.get_progress
      (⟨0, 1000, ⟨7, []⟩, 0, 100, 1000⟩ : Animation ℤ Unit) 1200 > 1 := by
  rw [get_progress_eq_div]
  norm_num

theorem tick_boundary_clamping_witness :
    (0 : ℤ) < 1000 ∧
    Animation.get_progress
        (⟨0, 1000, ⟨7, []⟩, 0, 100, 1000⟩ : Animation ℤ Unit) 1200 > 1 ∧
    (Animation.tick
        (⟨0, 1000, ⟨7, []⟩, 0, 100, 1000⟩ : Animation ℤ Unit) 1200).1.value
      = 100 :=
  ⟨by decide, clampWitnessProgress,
   ((tick_boundary_clamping.1 ℤ Unit
      (⟨0, 1000, ⟨7, []⟩, 0, 100, 1000⟩ : Animation ℤ Unit) 1200
      (by decide)).1 clampWitnessProgress)⟩

/-- C2, counterexample.  The claim says that with `duration = 0`,
`tick` called at the captured `start_time` leaves the property at
`end`.  On the code it does not: `get_progress` short-circuits to 0,
so `tick` takes the interpolation branch and writes
`lerp(start, end, 0) = start`.  Concretely with `start = 1`, `end = 2`,
`duration = 0`, prepared at time 100, `tick 100` leaves the value at 1,
not 2. -/
theorem tick_duration_zero_counterexample :
    ((Animation.prep (⟨0, 0, ⟨5, []⟩, 1, 2, 0⟩ : Animation ℤ Unit) 100).tick
        100).1.value = 1 ∧ (1 : ℤ) ≠ 2 := by
  constructor
  · have hp : (Animation.prep
        (⟨0, 0, ⟨5, []⟩, 1, 2, 0⟩ : Animation ℤ Unit) 100).get_progress 100
        = 0 := by
      simp [Animation.prep, Animation.get_progress]
    simp only [Animation.tick]
    rw [hp]
    rw [if_neg (by norm_num), if_neg (by norm_num),
      get_value_for_progress_int]
    simp [Animation.prep, directWrite, lerpInt_zero]
  · decide

/-- C2, amended.  With `duration = 0`, calling `tick` immediately after
`prep` (i.e. at the captured `start_time`) raises no arithmetic fault —
the `delta == 0` short-circuit returns progress 0 without dividing —
and leaves the bound property's value equal to `start` (not `end`), for
both the integer and the floating instantiation. -/
theorem tick_duration_zero_amended :
    (∀ (α : Type) (prop : ObservableProperty ℤ α) (s e now : ℤ),
      (Animation.prep ⟨0, 0, prop, s, e, 0⟩ now).get_progress now = 0 ∧
      ((Animation.prep ⟨0, 0, prop, s, e, 0⟩ now).tick now).1.value = s) ∧
    (∀ (α : Type) (prop : ObservableProperty ℚ α) (s e : ℚ) (now : ℤ),
      (Animation.prep ⟨0, 0, prop, s, e, 0⟩ now).get_progress now = 0 ∧
      ((Animation.prep ⟨0, 0, prop, s, e, 0⟩ now).tick now).1.value = s) := by
  constructor
  · intro α prop s e now
    have hp : (Animation.prep
        (⟨0, 0, prop, s, e, 0⟩ : Animation ℤ α) now).get_progress now
        = 0 := by
      simp [Animation.prep, Animation.get_progress]
    refine ⟨hp, ?_⟩
    simp only [Animation.tick]
    rw [hp]
    rw [if_neg (by norm_num), if_neg (by norm_num),
      get_value_for_progress_int]
    simp [Animation.prep, directWrite, lerpInt_zero]
  · intro α prop s e now
    have hp : (Animation.prep
        (⟨0, 0, prop, s, e, 0⟩ : Animation ℚ α) now).get_progress now
        = 0 := by
      simp [Animation.prep, Animation.get_progress]
    refine ⟨hp, ?_⟩
    simp only [Animation.tick]
    rw [hp]
    rw [if_neg (by norm_num), if_neg (by norm_num),
      get_value_for_progress_rat]
    simp [Animation.prep, directWrite, lerpRat_zero]

/-- C8.  Numeric truncation semantics: for integer `T` the value
written is the rational intermediate `start + prog * (end - start)`
truncated toward zero, while for floating `T` it is the exact
intermediate; concretely with `start = 0`, `end = 100`,
`duration = 1000` prepared at any `st`, `tick (st + 500)` writes `50`
for integer `T` and the exact `50` for floating `T`. -/
theorem lerp_truncation_semantics :
    (∀ (s e : ℤ) (p : ℚ),
      lerpInt s e p = ratTrunc ((s : ℚ) + p * ((e : ℚ) - (s : ℚ)))) ∧
    (∀ (s e p : ℚ), lerpRat s e p = s + p * (e - s)) ∧
    (∀ (α : Type) (prop : ObservableProperty ℤ α) (st : ℤ),
      ((Animation.prep ⟨0, 0, prop, 0, 100, 1000⟩ st).tick
          (st + 500)).1.value = 50) ∧
    (∀ (α : Type) (prop : ObservableProperty ℚ α) (st : ℤ),
      ((Animation.prep ⟨0, 0, prop, 0, 100, 1000⟩ st).tick
          (st + 500)).1.value = 50) := by
  refine ⟨fun s e p => rfl, fun s e p => rfl,
    fun α prop st => ?_, fun α prop st => ?_⟩
  · have hprog : (Animation.prep
        (⟨0, 0, prop, 0, 100, 1000⟩ : Animation ℤ α) st).get_progress
        (st + 500) = 1 / 2 := by
      rw [get_progress_eq_div]
      unfold Animation.prep
      push_cast
      ring_nf
    simp only [Animation.tick]
    rw [hprog]
    rw [if_neg (by norm_num), if_neg (by norm_num),
      get_value_for_progress_int]
    show (directWrite prop (lerpInt 0 100 (1 / 2))).1.value = 50
    have h50 : ((0 : ℤ) : ℚ) + (1 / 2) * (((100 : ℤ) : ℚ) - ((0 : ℤ) : ℚ))
        = ((50 : ℤ) : ℚ) := by norm_num
    unfold lerpInt
    rw [h50, ratTrunc_intCast]
    rfl
  · have hprog : (Animation.prep
        (⟨0, 0, prop, 0, 100, 1000⟩ : Animation ℚ α) st).get_progress
        (st + 500) = 1 / 2 := by
      rw [get_progress_eq_div]
      unfold Animation.prep
      push_cast
      ring_nf
    simp only [Animation.tick]
    rw [hprog]
    rw [if_neg (by norm_num), if_neg (by norm_num),
      get_value_for_progress_rat]
    show (directWrite prop (lerpRat 0 100 (1 / 2))).1.value = 50
    unfold lerpRat
    norm_num [directWrite]

theorem lerpRat_mem_range (s e p : ℚ) (h0 : 0 ≤ p) (h1 : p ≤ 1) :
    min s e ≤ lerpRat s e p ∧ lerpRat s e p ≤ max s e := by
  unfold lerpRat
  rcases le_total s e with h | h
  · rw [min_eq_left h, max_eq_right h]
    constructor
    · nlinarith
    · nlinarith
  · rw [min_eq_right h, max_eq_left h]
    constructor
    · nlinarith
    · nlinarith

theorem ratTrunc_bounds (lo hi : ℤ) (q : ℚ) (hlo : (lo : ℚ) ≤ q)
    (hhi : q ≤ (hi : ℚ)) : lo ≤ ratTrunc q ∧ ratTrunc q ≤ hi := by
  unfold ratTrunc
  split
  · constructor
    · exact Int.le_floor.mpr hlo
    · have h : ((⌊q⌋ : ℤ) : ℚ) ≤ (hi : ℚ) := le_trans (Int.floor_le q) hhi
      exact_mod_cast h
  · constructor
    · have h : (lo : ℚ) ≤ ((⌈q⌉ : ℤ) : ℚ) := le_trans hlo (Int.le_ceil q)
      exact_mod_cast h
    · exact Int.ceil_le.mpr hhi

/-- C10.  Range invariant: for any animation with `duration > 0`, the
value `tick` writes lies between `min start end` and `max start end`:
the overshoot and undershoot branches write the endpoints, and for
progress in `[0, 1]` the linear interpolation is a convex combination
(truncation toward zero stays within the integer endpoints). -/
theorem tick_range_invariant :
    (∀ (α : Type) (a : Animation ℤ α) (now : ℤ), 0 < a.duration →
      min a.start a.endv ≤ (a.tick now).1.value ∧
      (a.tick now).1.value ≤ max a.start a.endv) ∧
    (∀ (α : Type) (a : Animation ℚ α) (now : ℤ), 0 < a.duration →
      min a.start a.endv ≤ (a.tick now).1.value ∧
      (a.tick now).1.value ≤ max a.start a.endv) := by
  constructor
  · intro α a now _
    simp only [Animation.tick]
    by_cases h1 : a.get_progress now > 1
    · rw [if_pos h1]
      exact ⟨min_le_right _ _, le_max_right _ _⟩
    · rw [if_neg h1]
      by_cases h2 : a.get_progress now < 0
      · rw [if_pos h2]
        exact ⟨min_le_left _ _, le_max_left _ _⟩
      · rw [if_neg h2, get_value_for_progress_int]
        show min a.start a.endv ≤ lerpInt a.start a.endv _ ∧
          lerpInt a.start a.endv _ ≤ max a.start a.endv
        unfold lerpInt
        have hr := lerpRat_mem_range (a.start : ℚ) (a.endv : ℚ)
          (a.get_progress now) (not_lt.mp h2) (not_lt.mp h1)
        unfold lerpRat at hr
        have hmin : ((min a.start a.endv : ℤ) : ℚ)
            = min (a.start : ℚ) (a.endv : ℚ) := by push_cast; rfl
        have hmax : ((max a.start a.endv : ℤ) : ℚ)
            = max (a.start : ℚ) (a.endv : ℚ) := by push_cast; rfl
        exact ratTrunc_bounds _ _ _ (hmin ▸ hr.1) (hmax ▸ hr.2)
  · intro α a now _
    simp only [Animation.tick]
    by_cases h1 : a.get_progress now > 1
    · rw [if_pos h1]
      exact ⟨min_le_right _ _, le_max_right _ _⟩
    · rw [if_neg h1]
      by_cases h2 : a.get_progress now < 0
      · rw [if_pos h2]
        exact ⟨min_le_left _ _, le_max_left _ _⟩
      · rw [if_neg h2, get_value_for_progress_rat]
        exact lerpRat_mem_range a.start a.endv (a.get_progress now)
          (not_lt.mp h2) (not_lt.mp h1)

theorem tick_range_invariant_witness :
    (0 : ℤ) < 1000 ∧
    (min (0 : ℤ) 100 ≤
        (Animation.tick
          (⟨0, 1000, ⟨7, []⟩, 0, 100, 1000⟩ : Animation ℤ Unit) 250).1.value ∧
      (Animation.tick
          (⟨0, 1000, ⟨7, []⟩, 0, 100, 1000⟩ : Animation ℤ Unit) 250).1.value
        ≤ max (0 : ℤ) 100) :=
  ⟨by decide,
   tick_range_invariant.1 Unit
     (⟨0, 1000, ⟨7, []⟩, 0, 100, 1000⟩ : Animation ℤ Unit) 250 (by decide)⟩

end SyntacticObserver
